import Mathlib

/-!
Verification of the request/response core of the sudojo_client repository.

The definitions below are shallow embeddings of the TypeScript source:

* `createURLSearchParams` (append / toString) and the comma-preserving value
  emission `encodeURIComponent(value).replace(/%2C/g, ",")` from
  `sudojo-client.ts`;
* the solver URL builder `buildSolverUrl` (keys sorted alphabetically);
* the endpoint query construction of `getChallenges` (insertion order);
* the UUID validator `isValidUUID` / `validateUUID` and the `getLevel` facade;
* the private `request` executor (payload unwrapping) and the `solverSolve`
  402 dispatch together with the `HintAccessDeniedError` constructor;
* the `STALE_TIMES` table and the per-hook staleness assignments;
* the `queryKeys` cache-key factory under deep structural equality;
* the `getPointHistory` pagination query construction.

JavaScript strings are modelled as `List Char` / `String` over Unicode scalar
values; machine numbers that occur (status codes, stale times, pagination
counts, hint levels) are small integers, modelled as `Nat` / `Int`.
-/

-- ===========================================================================
-- Character-level utilities: JS default sort order on strings
-- ===========================================================================

/-- Lexicographic comparison of character lists by code point, the order used
by the JavaScript default `Array.prototype.sort` on the ASCII query-parameter
keys appearing in this client. -/
def lexLe : List Char → List Char → Bool
  | [], _ => true
  | _ :: _, [] => false
  | a :: as, b :: bs =>
    if a < b then true
    else if b < a then false
    else lexLe as bs

/-- Order on strings induced by `lexLe`, used to model `Object.keys(...).sort()`. -/
def strLe (a b : String) : Prop := lexLe a.data b.data = true

instance : DecidableRel strLe := fun a b =>
  inferInstanceAs (Decidable (lexLe a.data b.data = true))

/-- Strict version of `strLe`. -/
def strLt (a b : String) : Prop := strLe a b ∧ a ≠ b

instance : DecidableRel strLt := fun a b =>
  inferInstanceAs (Decidable (strLe a b ∧ a ≠ b))

-- ===========================================================================
-- encodeURIComponent model (RFC 3986 unreserved set of ECMA-262, UTF-8 bytes)
-- ===========================================================================

/-- Mark characters that `encodeURIComponent` leaves unescaped, compared by
code point: `- _ . ! ~ * ' ( )`. -/
def isUnreservedMark (c : Char) : Bool :=
  c.toNat = 45 || c.toNat = 95 || c.toNat = 46 || c.toNat = 33 ||
  c.toNat = 126 || c.toNat = 42 || c.toNat = 39 || c.toNat = 40 || c.toNat = 41

/-- Characters `encodeURIComponent` leaves unescaped: ASCII letters, digits,
and the marks above. -/
def isUriUnreserved (c : Char) : Bool :=
  (65 ≤ c.toNat && c.toNat ≤ 90) || (97 ≤ c.toNat && c.toNat ≤ 122) ||
  (48 ≤ c.toNat && c.toNat ≤ 57) || isUnreservedMark c

/-- Uppercase hexadecimal digit for a value below 16. -/
def hexUpper (n : Nat) : Char :=
  (['0', '1', '2', '3', '4', '5', '6', '7', '8', '9',
    'A', 'B', 'C', 'D', 'E', 'F']).getD n '0'

/-- Percent-escape token for one byte, e.g. byte 44 becomes `%2C`. -/
def pctToken (b : Nat) : List Char :=
  ['%', hexUpper (b / 16), hexUpper (b % 16)]

/-- UTF-8 byte sequence of a Unicode scalar value. -/
def utf8Bytes (v : Nat) : List Nat :=
  if v < 128 then [v]
  else if v < 2048 then [192 + v / 64, 128 + v % 64]
  else if v < 65536 then [224 + v / 4096, 128 + (v / 64) % 64, 128 + v % 64]
  else [240 + v / 262144, 128 + (v / 4096) % 64, 128 + (v / 64) % 64, 128 + v % 64]

/-- Encoding of a single character by `encodeURIComponent`. -/
def encodeChar (c : Char) : List Char :=
  if isUriUnreserved c then [c] else (utf8Bytes c.toNat).flatMap pctToken

/-- Model of `encodeURIComponent` on the characters of a JS string. -/
def encodeURIComponentChars (s : List Char) : List Char :=
  s.flatMap encodeChar

/-- Model of `encodeURIComponent` on `String`. -/
def encodeURIComponentStr (s : String) : String :=
  ⟨encodeURIComponentChars s.data⟩

/-- Model of `.replace(/%2C/g, ",")`: left-to-right, non-overlapping
replacement of every occurrence of `%2C` by a comma.  When a match starts at
the head, the two matched digit characters are neither `%` nor match starts
themselves, so continuing after the escape is the same as dropping the two
digits from the recursively processed tail; this keeps the recursion
structural. -/
def replaceCommaEscapes : List Char → List Char
  | [] => []
  | c :: rest =>
    if c = '%' && rest.take 2 = ['2', 'C'] then ',' :: (replaceCommaEscapes rest).drop 2
    else c :: replaceCommaEscapes rest

/-- Per-value emission of the URL search params utility, the source expression
`encodeURIComponent(value).replace(/%2C/g, ",")`. -/
def emitValueChars (v : List Char) : List Char :=
  replaceCommaEscapes (encodeURIComponentChars v)

/-- String wrapper of `emitValueChars`. -/
def emitValue (v : String) : String :=
  ⟨emitValueChars v.data⟩

/-- Occurrence check for the three-character sequence `%2C`. -/
def contains2C : List Char → Bool
  | [] => false
  | c :: rest => (c = '%' && rest.take 2 = ['2', 'C']) || contains2C rest

-- ===========================================================================
-- decodeURIComponent model (escape parsing to bytes, then UTF-8 decoding)
-- ===========================================================================

/-- Value of one hexadecimal digit character, case-insensitive. -/
def hexVal (c : Char) : Option Nat :=
  if 48 ≤ c.toNat && c.toNat ≤ 57 then some (c.toNat - 48)
  else if 65 ≤ c.toNat && c.toNat ≤ 70 then some (c.toNat - 55)
  else if 97 ≤ c.toNat && c.toNat ≤ 102 then some (c.toNat - 87)
  else none

/-- Parse a percent-encoded ASCII string into its byte sequence: an escape
`%XY` contributes the byte `XY`; a literal ASCII character contributes its own
code. Inputs outside this domain (bad escapes, non-ASCII literals) fail, as
`decodeURIComponent` throws there. -/
def pctDecodeBytes : List Char → Option (List Nat)
  | [] => some []
  | c :: rest =>
    if c = '%' then
      match rest with
      | h1 :: h2 :: rest2 =>
        match hexVal h1, hexVal h2 with
        | some a, some b => (pctDecodeBytes rest2).map (fun t => (a * 16 + b) :: t)
        | _, _ => none
      | _ => none
    else if c.toNat < 128 then (pctDecodeBytes rest).map (fun t => c.toNat :: t)
    else none

/-- Continuation-byte test for UTF-8. -/
def isUtf8Cont (b : Nat) : Bool := 128 ≤ b && b < 192

mutual

/-- Decode a UTF-8 byte sequence into Unicode scalar values.  A lead byte
selects how many continuation bytes follow; `utf8DecContN` folds `N`
continuation bytes into the accumulated high bits and finishes the
character. -/
def utf8DecodeCodepoints : List Nat → Option (List Nat)
  | [] => some []
  | b :: rest =>
    if b < 128 then (utf8DecodeCodepoints rest).map (fun t => b :: t)
    else if b < 192 then none
    else if b < 224 then utf8DecCont1 (b - 192) rest
    else if b < 240 then utf8DecCont2 (b - 224) rest
    else if b < 248 then utf8DecCont3 (b - 240) rest
    else none

/-- Fold the final continuation byte into the accumulated high bits. -/
def utf8DecCont1 (hi : Nat) : List Nat → Option (List Nat)
  | c1 :: rest =>
    if isUtf8Cont c1 then
      (utf8DecodeCodepoints rest).map (fun t => (hi * 64 + (c1 - 128)) :: t)
    else none
  | [] => none

/-- Fold two continuation bytes into the accumulated high bits. -/
def utf8DecCont2 (hi : Nat) : List Nat → Option (List Nat)
  | c1 :: rest =>
    if isUtf8Cont c1 then utf8DecCont1 (hi * 64 + (c1 - 128)) rest else none
  | [] => none

/-- Fold three continuation bytes into the accumulated high bits. -/
def utf8DecCont3 (hi : Nat) : List Nat → Option (List Nat)
  | c1 :: rest =>
    if isUtf8Cont c1 then utf8DecCont2 (hi * 64 + (c1 - 128)) rest else none
  | [] => none

end

/-- Model of `decodeURIComponent` on percent-encoder output: parse escapes to
bytes, UTF-8 decode, and rebuild the characters. -/
def decodeURIComponentModel (s : List Char) : Option (List Char) :=
  (pctDecodeBytes s).bind fun bs =>
    (utf8DecodeCodepoints bs).map fun vs => vs.map Char.ofNat

-- ===========================================================================
-- createURLSearchParams model (sudojo-client.ts)
-- ===========================================================================

/-- State of the `createURLSearchParams` utility: a `Record<string, string[]>`
in key insertion order. -/
abbrev SearchParams := List (String × List String)

/-- The `append` operation: push onto the existing entry for the key, or add a
new key at the end. -/
def appendParam (ps : SearchParams) (k v : String) : SearchParams :=
  if ps.any (fun kv => kv.1 = k) then
    ps.map (fun kv => if kv.1 = k then (kv.1, kv.2 ++ [v]) else kv)
  else ps ++ [(k, [v])]

/-- The `toString` operation: `enc(key)=emit(value)` pairs joined by `&`,
where values keep literal commas (`emitValue`). -/
def searchParamsToString (ps : SearchParams) : String :=
  String.intercalate "&"
    (ps.flatMap fun kv => kv.2.map fun v => encodeURIComponentStr kv.1 ++ "=" ++ emitValue v)

/-- Keys of a `SearchParams` value in emission order. -/
def paramKeys (ps : SearchParams) : List String :=
  ps.map Prod.fst

-- ===========================================================================
-- getChallenges query construction (insertion order: level, then difficulty)
-- ===========================================================================

/-- Search params built by `getChallenges`: append `level` when defined, then
append `difficulty` when truthy (present and non-empty). -/
def getChallengesParams (level : Option Int) (difficulty : Option String) : SearchParams :=
  let ps0 : SearchParams := []
  let ps1 := match level with
    | some n => appendParam ps0 "level" (toString n)
    | none => ps0
  match difficulty with
  | some d => if d = "" then ps1 else appendParam ps1 "difficulty" d
  | none => ps1

/-- Endpoint produced by `getChallenges`: the path plus an optional query. -/
def getChallengesEndpoint (level : Option Int) (difficulty : Option String) : String :=
  let q := searchParamsToString (getChallengesParams level difficulty)
  "/api/v1/challenges" ++ (if q = "" then "" else "?" ++ q)

-- ===========================================================================
-- buildSolverUrl model (keys sorted alphabetically)
-- ===========================================================================

/-- Value of a solver query parameter before stringification:
`string | boolean` (absent values are `none` in the bag). -/
inductive PVal where
  | str (s : String)
  | bool (b : Bool)

/-- The `String(value)` conversion applied by `buildSolverUrl`. -/
def pvalString : PVal → String
  | .str s => s
  | .bool true => "true"
  | .bool false => "false"

/-- Parameter bag of `buildSolverUrl`: a `Record<string, string | boolean |
undefined>` literal, keys in insertion order, `none` meaning `undefined`. -/
abbrev SolverParamBag := List (String × Option PVal)

/-- Lookup of `params[key]` in the bag. -/
def bagLookup (bag : SolverParamBag) (k : String) : Option PVal :=
  match bag.find? (fun kv => kv.1 = k) with
  | some kv => kv.2
  | none => none

/-- Sorted key list `Object.keys(params).sort()`. -/
def sortedBagKeys (bag : SolverParamBag) : List String :=
  List.insertionSort strLe (bag.map Prod.fst)

/-- Loop body of `buildSolverUrl`: walk the sorted keys and append each
defined value. -/
def collectSolverParams (bag : SolverParamBag) : List String → SearchParams → SearchParams
  | [], ps => ps
  | k :: ks, ps =>
    match bagLookup bag k with
    | some v => collectSolverParams bag ks (appendParam ps k (pvalString v))
    | none => collectSolverParams bag ks ps

/-- Model of `buildSolverUrl`: endpoint plus the sorted, comma-preserving
query string. -/
def buildSolverUrl (endpoint : String) (bag : SolverParamBag) : String :=
  let q := searchParamsToString (collectSolverParams bag (sortedBagKeys bag) [])
  endpoint ++ (if q = "" then "" else "?" ++ q)

/-- Options accepted by `solverSolve`. -/
structure SolveOptionsModel where
  original : String
  user : String
  autoPencilmarks : Option Bool
  pencilmarks : Option String
  filters : Option String
  techniques : Option String

/-- Parameter bag passed by `solverSolve` to `buildSolverUrl`, in the literal
insertion order of the source. -/
def solverSolveBag (o : SolveOptionsModel) : SolverParamBag :=
  [("original", some (PVal.str o.original)),
   ("user", some (PVal.str o.user)),
   ("autopencilmarks", o.autoPencilmarks.map PVal.bool),
   ("pencilmarks", o.pencilmarks.map PVal.str),
   ("filters", o.filters.map PVal.str),
   ("techniques", o.techniques.map PVal.str)]

-- ===========================================================================
-- SudojoClient base URL and the solverValidate request URL
-- ===========================================================================

/-- Base URL stored by the `SudojoClient` constructor: `createApiConfig`
copies the argument verbatim into `BASE_URL`; no normalization happens. -/
def sudojoClientBaseUrl (baseUrl : String) : String := baseUrl

/-- Path constant `SOLVER_VALIDATE`. -/
def SOLVER_VALIDATE_PATH : String := "/api/v1/solver/validate"

/-- Full request URL of `solverValidate`: the stored base URL concatenated
with the built endpoint, exactly as `request` computes `baseUrl + endpoint`. -/
def solverValidateUrl (baseUrl original : String) : String :=
  sudojoClientBaseUrl baseUrl ++
    buildSolverUrl SOLVER_VALIDATE_PATH [("original", some (PVal.str original))]

-- ===========================================================================
-- UUID validation (isValidUUID / validateUUID) and the getLevel facade
-- ===========================================================================

/-- Hexadecimal-digit test of the UUID regex character class, case-insensitive. -/
def isHexDigit (c : Char) : Bool :=
  (48 ≤ c.toNat && c.toNat ≤ 57) || (97 ≤ c.toNat && c.toNat ≤ 102) ||
  (65 ≤ c.toNat && c.toNat ≤ 70)

/-- Every character of the list is a hexadecimal digit. -/
def hexRun (cs : List Char) : Bool := cs.all isHexDigit

/-- Model of the regex `^h8-h4-h4-h4-h12$` used by `isValidUUID`: length 36,
hyphens at offsets 8, 13, 18, 23, hexadecimal digits elsewhere. -/
def isValidUUID (s : String) : Bool :=
  let l := s.data
  l.length = 36 && hexRun (l.take 8) && (l.getD 8 ' ' == '-') &&
  hexRun ((l.drop 9).take 4) && (l.getD 13 ' ' == '-') &&
  hexRun ((l.drop 14).take 4) && (l.getD 18 ' ' == '-') &&
  hexRun ((l.drop 19).take 4) && (l.getD 23 ' ' == '-') &&
  hexRun (l.drop 24)

/-- Failure raised by `validateUUID`, distinguishing the empty-input message
from the malformed-input message; both carry the field name, and the
malformed case also carries the offending value. -/
inductive ValidationFailure where
  | required (name : String)
  | invalidFormat (value name : String)
deriving DecidableEq

/-- Message text of a validation failure, per the two `throw new Error`
sites of `validateUUID`. -/
def validationMessage : ValidationFailure → String
  | .required n => n ++ " is required"
  | .invalidFormat v n =>
    "Invalid " ++ n ++ " format: \"" ++ v ++
      "\". Expected UUID format (xxxxxxxx-xxxx-xxxx-xxxx-xxxxxxxxxxxx)"

/-- Model of `validateUUID`: the empty check runs before the format check. -/
def validateUUID (uuid name : String) : Except ValidationFailure String :=
  if uuid = "" then .error (.required name)
  else if isValidUUID uuid = false then .error (.invalidFormat uuid name)
  else .ok uuid

/-- HTTP method of a request descriptor. -/
inductive HttpMethod where
  | GET
  | POST
  | PUT
  | DELETE
deriving DecidableEq

/-- Request descriptor handed to the transport. -/
structure HttpRequestModel where
  method : HttpMethod
  endpoint : String
deriving DecidableEq

/-- Model of the `getLevel` facade method: validate the UUID, then build the
`GET /api/v1/levels/:uuid` request; a validation failure propagates. -/
def getLevelRequest (uuid : String) : Except ValidationFailure HttpRequestModel :=
  (validateUUID uuid "Level UUID").map
    (fun v => { method := HttpMethod.GET, endpoint := "/api/v1/levels/" ++ v })

/-- Transport calls issued by one `getLevel` invocation: the single built
request on success, none when validation fails before the network step. -/
def getLevelNetworkCalls (uuid : String) : List HttpRequestModel :=
  match getLevelRequest uuid with
  | .ok r => [r]
  | .error _ => []

-- ===========================================================================
-- Request executor: response envelope and payload unwrapping (request)
-- ===========================================================================

/-- Normalized response envelope produced by the network transport:
`ok` flag, HTTP status code, and an optional decoded payload. -/
structure NetworkResponseEnvelope (α : Type) where
  ok : Bool
  status : Nat
  data : Option α

/-- Failure raised by the private `request` method after the transport
returns: the only check is payload presence, throwing
`No data received from server` when the payload is absent. -/
inductive RequestFailure where
  | noDataReceived
deriving DecidableEq

/-- Model of the tail of `SudojoClient.request`: after awaiting the
transport, throw when `response.data` is undefined, otherwise return
`response.data` as the success value. The `ok` flag and `status` are not
inspected. -/
def requestUnwrap {α : Type} (resp : NetworkResponseEnvelope α) : Except RequestFailure α :=
  match resp.data with
  | none => .error .noDataReceived
  | some d => .ok d

-- ===========================================================================
-- Request descriptor construction (method defaulting and body attachment)
-- ===========================================================================

/-- Request options assembled by `request` before the transport call; body
values are modelled as their serialized JSON text. -/
structure RequestInitModel where
  method : HttpMethod
  body : Option String
deriving DecidableEq

/-- Model of the descriptor assembly in `request`: the method defaults to GET
via `options.method || "GET"`, and the body is attached under the source
condition `options.body && options.method !== "GET"`, which tests the
declared method, not the defaulted one. -/
def buildRequestInit (methodOpt : Option HttpMethod) (bodyOpt : Option String) : RequestInitModel :=
  { method := methodOpt.getD HttpMethod.GET,
    body := if bodyOpt.isSome && decide (methodOpt ≠ some HttpMethod.GET) then bodyOpt else none }

-- ===========================================================================
-- solverSolve response dispatch and HintAccessDeniedError
-- ===========================================================================

/-- Error payload of a hint-access-denied response body, the shape consumed
by the `HintAccessDeniedError` constructor. The entitlement and user-state
types live in the external types package and stay abstract here. -/
structure HintErrorBody (E U : Type) where
  code : String
  message : String
  hintLevel : Nat
  requiredEntitlement : E
  userState : U

/-- Response body seen by `solverSolve`: an optional `error` object plus the
rest of the payload. -/
structure SolveResponseBody (α E U : Type) where
  error : Option (HintErrorBody E U)
  payload : α

/-- Model of the `HintAccessDeniedError` class: name, message, the fixed
code, and the three fields copied from the error payload. -/
structure HintAccessDeniedErrorModel (E U : Type) where
  name : String
  message : String
  code : String
  hintLevel : Nat
  requiredEntitlement : E
  userState : U

/-- The `HintAccessDeniedError` constructor from `hint-access-denied.ts`. -/
def mkHintAccessDeniedError {E U : Type} (d : HintErrorBody E U) : HintAccessDeniedErrorModel E U :=
  { name := "HintAccessDeniedError",
    message := d.message,
    code := "HINT_ACCESS_DENIED",
    hintLevel := d.hintLevel,
    requiredEntitlement := d.requiredEntitlement,
    userState := d.userState }

/-- Outcome of one `solverSolve` call after the transport returns. -/
inductive SolverSolveResult (α E U : Type) where
  | hintAccessDenied (e : HintAccessDeniedErrorModel E U)
  | solverFailure
  | success (d : SolveResponseBody α E U)

/-- Model of the response handling in `solverSolve`: first, when the status
is 402 and a payload is present whose error code is `HINT_ACCESS_DENIED`,
throw the typed `HintAccessDeniedError`; otherwise, when the envelope is not
ok or the payload is absent, throw the generic solver failure; otherwise
return the payload. -/
def solverSolveDispatch {α E U : Type}
    (resp : NetworkResponseEnvelope (SolveResponseBody α E U)) : SolverSolveResult α E U :=
  let denied : Option (HintErrorBody E U) :=
    match resp.data with
    | some d =>
      if resp.status = 402 then
        match d.error with
        | some e => if e.code = "HINT_ACCESS_DENIED" then some e else none
        | none => none
      else none
    | none => none
  match denied with
  | some e => .hintAccessDenied (mkHintAccessDeniedError e)
  | none =>
    match resp.data with
    | none => .solverFailure
    | some d => if resp.ok then .success d else .solverFailure

-- ===========================================================================
-- Staleness configuration (query-config.ts) and per-hook staleTime values
-- ===========================================================================

/-- Shape of the `STALE_TIMES` constant. -/
structure StaleTimesConfig where
  HEALTH_STATUS : Nat
  LEVELS : Nat
  TECHNIQUES : Nat
  LEARNING : Nat
  BOARDS : Nat
  DAILIES : Nat
  CHALLENGES : Nat
  USER_SUBSCRIPTION : Nat

/-- The `STALE_TIMES` table from `query-config.ts`, in milliseconds. -/
def STALE_TIMES : StaleTimesConfig :=
  { HEALTH_STATUS := 1 * 60 * 1000,
    LEVELS := 10 * 60 * 1000,
    TECHNIQUES := 10 * 60 * 1000,
    LEARNING := 10 * 60 * 1000,
    BOARDS := 5 * 60 * 1000,
    DAILIES := 5 * 60 * 1000,
    CHALLENGES := 5 * 60 * 1000,
    USER_SUBSCRIPTION := 2 * 60 * 1000 }

/-- staleTime of `useSudojoBoards` (list query). -/
def useSudojoBoardsStaleTime : Nat := STALE_TIMES.BOARDS

/-- staleTime of `useSudojoRandomBoard`: always fetch fresh for random. -/
def useSudojoRandomBoardStaleTime : Nat := 0

/-- staleTime of `useSudojoBoard` (detail query). -/
def useSudojoBoardStaleTime : Nat := STALE_TIMES.BOARDS

/-- staleTime of `useSudojoDailies` (list query). -/
def useSudojoDailiesStaleTime : Nat := STALE_TIMES.DAILIES

/-- staleTime of `useSudojoRandomDaily`: always fetch fresh for random. -/
def useSudojoRandomDailyStaleTime : Nat := 0

/-- staleTime of `useSudojoChallenges` (list query). -/
def useSudojoChallengesStaleTime : Nat := STALE_TIMES.CHALLENGES

/-- staleTime of `useSudojoRandomChallenge`: always fetch fresh for random. -/
def useSudojoRandomChallengeStaleTime : Nat := 0

/-- staleTime of `useSudojoChallenge` (detail query). -/
def useSudojoChallengeStaleTime : Nat := STALE_TIMES.CHALLENGES

/-- staleTime of `useSudojoPointHistory`: always fresh. -/
def useSudojoPointHistoryStaleTime : Nat := 0

/-- staleTime of `useSudojoLevels`. -/
def useSudojoLevelsStaleTime : Nat := STALE_TIMES.LEVELS

/-- staleTime of `useSudojoTechniques`. -/
def useSudojoTechniquesStaleTime : Nat := STALE_TIMES.TECHNIQUES

/-- staleTime of `useSudojoLearning`. -/
def useSudojoLearningStaleTime : Nat := STALE_TIMES.LEARNING

/-- staleTime of `useSudojoHealth`. -/
def useSudojoHealthStaleTime : Nat := STALE_TIMES.HEALTH_STATUS

/-- staleTime of `useSudojoUserSubscription`. -/
def useSudojoUserSubscriptionStaleTime : Nat := STALE_TIMES.USER_SUBSCRIPTION

/-- staleTime of `useSudojoGamificationStats`. -/
def useSudojoGamificationStatsStaleTime : Nat := STALE_TIMES.USER_SUBSCRIPTION

/-- staleTime of `useSudojoBadgeDefinitions` (badge catalog). -/
def useSudojoBadgeDefinitionsStaleTime : Nat := STALE_TIMES.LEVELS

-- ===========================================================================
-- Cache-key model (query-keys.ts) under deep structural equality
-- ===========================================================================

/-- Scalar value of a filter-object property; `undef` models an explicitly
present `undefined` property. -/
inductive FilterValue where
  | num (n : Int)
  | str (s : String)
  | undef
deriving DecidableEq

/-- Filter object: a JS object literal as an insertion-ordered association
list with unique keys. -/
abbrev FilterObj := List (String × FilterValue)

/-- Property lookup on a filter object. -/
def filterLookup (k : String) (f : FilterObj) : Option FilterValue :=
  (f.find? (fun kv => kv.1 = k)).map (fun kv => kv.2)

/-- Lookup that identifies an `undefined`-valued property with an absent
one, matching how the caching runtime serializes keys (undefined-valued
properties are dropped). -/
def definedLookup (k : String) (f : FilterObj) : Option FilterValue :=
  match filterLookup k f with
  | some FilterValue.undef => none
  | v => v

/-- Deep structural equality of two filter objects: property content agrees
in both directions, regardless of insertion order. -/
def filterObjEq (a b : FilterObj) : Bool :=
  a.all (fun kv => decide (definedLookup kv.1 a = definedLookup kv.1 b)) &&
  b.all (fun kv => decide (definedLookup kv.1 a = definedLookup kv.1 b))

/-- Segment of a cache key produced by the `queryKeys` factory. -/
inductive CacheKeySegment where
  | strSeg (s : String)
  | numSeg (n : Int)
  | objSeg (f : FilterObj)

/-- Deep structural equality of two cache-key segments. -/
def segEq : CacheKeySegment → CacheKeySegment → Bool
  | .strSeg a, .strSeg b => a = b
  | .numSeg a, .numSeg b => a = b
  | .objSeg a, .objSeg b => filterObjEq a b
  | _, _ => false

/-- Deep structural equality of two cache keys: same length, segments equal
pointwise. -/
def cacheKeyEq (k1 k2 : List CacheKeySegment) : Bool :=
  k1.length = k2.length && (k1.zip k2).all (fun p => segEq p.1 p.2)

/-- The `sudojoBase()` namespace segment. -/
def sudojoBaseKey : List CacheKeySegment := [.strSeg "sudojo"]

/-- Cache key of `queryKeys.sudojo.techniques(filters)`. -/
def techniquesKey (filters : FilterObj) : List CacheKeySegment :=
  sudojoBaseKey ++ [.strSeg "techniques", .objSeg filters]

/-- Cache key of `queryKeys.sudojo.challenges(filters)`. -/
def challengesKey (filters : FilterObj) : List CacheKeySegment :=
  sudojoBaseKey ++ [.strSeg "challenges", .objSeg filters]

-- ===========================================================================
-- getPointHistory pagination query construction
-- ===========================================================================

/-- Path constant `GAMIFICATION_HISTORY`. -/
def GAMIFICATION_HISTORY_PATH : String := "/api/v1/gamification/history"

/-- JavaScript truthiness of an optional number: absent and 0 are falsy. -/
def jsNumTruthy : Option Int → Bool
  | some n => decide (n ≠ 0)
  | none => false

/-- The `String(n)` conversion of an optional number (absent stringifies to
`undefined`, though the truthiness guards keep that case unreachable). -/
def jsNumString : Option Int → String
  | some n => toString n
  | none => "undefined"

/-- The `URLSearchParams.set` operation: overwrite an existing key or add a
new one at the end. -/
def setUrlParam (ps : List (String × String)) (k v : String) : List (String × String) :=
  if ps.any (fun kv => kv.1 = k) then
    ps.map (fun kv => if kv.1 = k then (k, v) else kv)
  else ps ++ [(k, v)]

/-- The `URLSearchParams.toString` serialization; the values appearing here
are decimal number strings, which the form encoding leaves unchanged. -/
def urlParamsToString (ps : List (String × String)) : String :=
  String.intercalate "&" (ps.map (fun kv => kv.1 ++ "=" ++ kv.2))

/-- Parameters set by `getPointHistory`: `limit` then `offset`, each only
when truthy. -/
def pointHistoryParams (limit offset : Option Int) : List (String × String) :=
  let ps1 := if jsNumTruthy limit then setUrlParam [] "limit" (jsNumString limit) else []
  if jsNumTruthy offset then setUrlParam ps1 "offset" (jsNumString offset) else ps1

/-- Endpoint built by `getPointHistory`: the query string is appended only
when `options?.limit || options?.offset` is truthy. -/
def getPointHistoryEndpoint (limit offset : Option Int) : String :=
  if jsNumTruthy limit || jsNumTruthy offset then
    GAMIFICATION_HISTORY_PATH ++ "?" ++ urlParamsToString (pointHistoryParams limit offset)
  else GAMIFICATION_HISTORY_PATH

-- ===========================================================================
-- Theorems
-- ===========================================================================

/-- C1 counterexample: a response envelope signalling a non-success status
(ok false, status 500) whose payload is present is returned by the request
executor as a success carrying that payload; no typed API failure with the
status code is raised (the executor's only failure is `noDataReceived`). -/
theorem requestUnwrap_nonSuccess_payload_counterexample :
    requestUnwrap { ok := false, status := 500, data := some (42 : Nat) } =
      Except.ok 42 := rfl

/-- C1 (amended): the generic request executor never inspects the envelope's
ok flag or status code; a present payload is returned as a success for any
status, and only a missing payload raises the no-data failure. -/
theorem requestUnwrap_ignores_status {α : Type} (ok1 ok2 : Bool) (s1 s2 : Nat)
    (d : Option α) (x : α) :
    requestUnwrap { ok := ok1, status := s1, data := d } =
      requestUnwrap { ok := ok2, status := s2, data := d } ∧
    requestUnwrap { ok := ok1, status := s1, data := some x } = Except.ok x ∧
    requestUnwrap { ok := ok1, status := s1, data := (none : Option α) } =
      Except.error RequestFailure.noDataReceived :=
  ⟨rfl, rfl, rfl⟩

/-- C3: when `solverSolve` receives a 402 envelope whose payload carries the
error code HINT_ACCESS_DENIED, it raises the distinct HintAccessDeniedError
carrying the requested hint level, the required entitlement, and the user
state; a 402 envelope (hence not ok) whose payload carries any other error
code falls through to the generic solver failure. -/
theorem solverSolve_402_dispatch {α E U : Type}
    (resp : NetworkResponseEnvelope (SolveResponseBody α E U))
    (d : SolveResponseBody α E U) (e : HintErrorBody E U)
    (hd : resp.data = some d) (hs : resp.status = 402) :
    (d.error = some e → e.code = "HINT_ACCESS_DENIED" →
      solverSolveDispatch resp = SolverSolveResult.hintAccessDenied
        ⟨"HintAccessDeniedError", e.message, "HINT_ACCESS_DENIED",
          e.hintLevel, e.requiredEntitlement, e.userState⟩) ∧
    (resp.ok = false → d.error = some e → e.code ≠ "HINT_ACCESS_DENIED" →
      solverSolveDispatch resp = SolverSolveResult.solverFailure) := by
  constructor
  · intro he hc
    simp [solverSolveDispatch, hd, hs, he, hc, mkHintAccessDeniedError]
  · intro hok he hc
    simp [solverSolveDispatch, hd, hs, he, hc, hok]

/-- C3 witness: concrete 402 envelopes, one with the recognized code and one
with a different code. -/
theorem solverSolve_402_dispatch_witness :
    solverSolveDispatch (α := Nat) (E := String) (U := String)
      ⟨false, 402, some ⟨some ⟨"HINT_ACCESS_DENIED", "upgrade required", 3, "premium", "free"⟩, 0⟩⟩ =
      SolverSolveResult.hintAccessDenied
        ⟨"HintAccessDeniedError", "upgrade required", "HINT_ACCESS_DENIED", 3, "premium", "free"⟩ ∧
    solverSolveDispatch (α := Nat) (E := String) (U := String)
      ⟨false, 402, some ⟨some ⟨"PAYMENT_REQUIRED", "other", 1, "premium", "free"⟩, 0⟩⟩ =
      SolverSolveResult.solverFailure :=
  ⟨(solverSolve_402_dispatch _ _ _ rfl rfl).1 rfl rfl,
   (solverSolve_402_dispatch _ _ _ rfl rfl).2 rfl rfl (by decide)⟩

/-- C4 (code bug): constructing a client with base URL
`http://localhost:5000///` and calling the solver validate operation yields a
request URL with four slashes between the host and `api/v1/solver/validate`;
the constructor performs no trailing-slash stripping, contrary to the
documented scenario (and to the solver client's own test of it). -/
theorem solverValidate_url_trailing_slashes_not_stripped :
    solverValidateUrl "http://localhost:5000///" "0" =
      "http://localhost:5000////api/v1/solver/validate?original=0" ∧
    "http://localhost:5000////api/v1/solver/validate?original=0" ≠
      "http://localhost:5000/api/v1/solver/validate?original=0" := by
  exact ⟨by decide, by decide⟩

/-- C5 (code bug): the body-attachment guard tests the declared method, not
the defaulted one — a call that supplies a body and leaves the method
unspecified produces a GET request that still carries the body, although an
explicitly-GET call does not, and a POST call does. -/
theorem request_body_attached_on_default_get :
    (buildRequestInit none (some "x")).method = HttpMethod.GET ∧
    (buildRequestInit none (some "x")).body = some "x" ∧
    (buildRequestInit (some HttpMethod.GET) (some "x")).body = none ∧
    (buildRequestInit (some HttpMethod.POST) (some "x")).body = some "x" := by
  decide

/-- C9: the explicitly random or history queries (random board, random
daily, random challenge, point-transaction history) use staleness 0, while
the list and detail queries of the same resource classes use their nonzero
class durations: reference data 10 minutes, generated content 5 minutes,
user subscription and stats 2 minutes, health 1 minute. -/
theorem stale_times_random_and_history_zero :
    useSudojoRandomBoardStaleTime = 0 ∧
    useSudojoRandomDailyStaleTime = 0 ∧
    useSudojoRandomChallengeStaleTime = 0 ∧
    useSudojoPointHistoryStaleTime = 0 ∧
    useSudojoBoardsStaleTime = STALE_TIMES.BOARDS ∧
    useSudojoBoardStaleTime = STALE_TIMES.BOARDS ∧
    useSudojoDailiesStaleTime = STALE_TIMES.DAILIES ∧
    useSudojoChallengesStaleTime = STALE_TIMES.CHALLENGES ∧
    useSudojoChallengeStaleTime = STALE_TIMES.CHALLENGES ∧
    useSudojoLevelsStaleTime = STALE_TIMES.LEVELS ∧
    useSudojoTechniquesStaleTime = STALE_TIMES.TECHNIQUES ∧
    useSudojoLearningStaleTime = STALE_TIMES.LEARNING ∧
    useSudojoHealthStaleTime = STALE_TIMES.HEALTH_STATUS ∧
    useSudojoUserSubscriptionStaleTime = STALE_TIMES.USER_SUBSCRIPTION ∧
    useSudojoGamificationStatsStaleTime = STALE_TIMES.USER_SUBSCRIPTION ∧
    useSudojoBadgeDefinitionsStaleTime = STALE_TIMES.LEVELS ∧
    STALE_TIMES.HEALTH_STATUS = 60000 ∧
    STALE_TIMES.LEVELS = 600000 ∧
    STALE_TIMES.TECHNIQUES = 600000 ∧
    STALE_TIMES.LEARNING = 600000 ∧
    STALE_TIMES.BOARDS = 300000 ∧
    STALE_TIMES.DAILIES = 300000 ∧
    STALE_TIMES.CHALLENGES = 300000 ∧
    STALE_TIMES.USER_SUBSCRIPTION = 120000 := by
  decide

/-- C6: for a UUID-taking operation, an empty identifier fails with the
required failure, a non-empty identifier not matching the 8-4-4-4-12
hyphenated hexadecimal form fails with the invalid-format failure naming the
offending value and the field, and in both cases no network request is
issued by the `getLevel` facade. -/
theorem validateUUID_required_and_invalid_format (uuid name : String) :
    (uuid = "" →
      validateUUID uuid name = Except.error (ValidationFailure.required name) ∧
      getLevelNetworkCalls uuid = []) ∧
    (uuid ≠ "" → isValidUUID uuid = false →
      validateUUID uuid name = Except.error (ValidationFailure.invalidFormat uuid name) ∧
      getLevelNetworkCalls uuid = []) := by
  constructor
  · intro h
    subst h
    exact ⟨rfl, rfl⟩
  · intro hne hbad
    refine ⟨?_, ?_⟩
    · simp [validateUUID, hne, hbad]
    · simp [getLevelNetworkCalls, getLevelRequest, validateUUID, hne, hbad, Except.map]

/-- C6 witness: the empty identifier and a malformed identifier. -/
theorem validateUUID_required_and_invalid_format_witness :
    (validateUUID "" "Level UUID" =
        Except.error (ValidationFailure.required "Level UUID") ∧
      getLevelNetworkCalls "" = []) ∧
    (validateUUID "xyz" "Level UUID" =
        Except.error (ValidationFailure.invalidFormat "xyz" "Level UUID") ∧
      getLevelNetworkCalls "xyz" = []) :=
  ⟨(validateUUID_required_and_invalid_format "" "Level UUID").1 rfl,
   (validateUUID_required_and_invalid_format "xyz" "Level UUID").2 (by decide) (by decide)⟩

/-- C10: in `getPointHistory` a pagination parameter whose value is 0 is
treated as absent: with both parameters 0 or unspecified no query string is
appended, a 0-valued limit or offset is omitted even when the other is
positive, and an explicit 0 is indistinguishable on the wire from omission. -/
theorem getPointHistory_zero_pagination_omitted (limit offset : Option Int) :
    getPointHistoryEndpoint none none = GAMIFICATION_HISTORY_PATH ∧
    getPointHistoryEndpoint (some 0) (some 0) = GAMIFICATION_HISTORY_PATH ∧
    getPointHistoryEndpoint (some 0) offset = getPointHistoryEndpoint none offset ∧
    getPointHistoryEndpoint limit (some 0) = getPointHistoryEndpoint limit none ∧
    getPointHistoryEndpoint (some 0) (some 5) = GAMIFICATION_HISTORY_PATH ++ "?offset=5" ∧
    getPointHistoryEndpoint (some 5) (some 0) = GAMIFICATION_HISTORY_PATH ++ "?limit=5" := by
  refine ⟨rfl, by decide, ?_, ?_, by decide, by decide⟩
  · simp [getPointHistoryEndpoint, pointHistoryParams, jsNumTruthy]
  · simp [getPointHistoryEndpoint, pointHistoryParams, jsNumTruthy]

-- ===========================================================================
-- Order lemmas for the key-sorting model
-- ===========================================================================

/-- Totality of the lexicographic comparison. -/
theorem lexLe_total (a : List Char) : ∀ b, lexLe a b = true ∨ lexLe b a = true := by
  induction a with
  | nil => intro b; left; rfl
  | cons x xs ih =>
    intro b
    cases b with
    | nil => right; rfl
    | cons y ys =>
      rcases lt_trichotomy x y with h | h | h
      · left; simp [lexLe, h]
      · subst h
        rcases ih ys with h2 | h2
        · left; simp [lexLe, lt_irrefl, h2]
        · right; simp [lexLe, lt_irrefl, h2]
      · right; simp [lexLe, h]

/-- Transitivity of the lexicographic comparison. -/
theorem lexLe_trans (a : List Char) :
    ∀ b c, lexLe a b = true → lexLe b c = true → lexLe a c = true := by
  induction a with
  | nil => intro b c _ _; rfl
  | cons x xs ih =>
    intro b c hab hbc
    cases b with
    | nil => simp [lexLe] at hab
    | cons y ys =>
      cases c with
      | nil => simp [lexLe] at hbc
      | cons z zs =>
        rcases lt_trichotomy x y with hxy | hxy | hxy
        · rcases lt_trichotomy y z with hyz | hyz | hyz
          · simp [lexLe, lt_trans hxy hyz]
          · subst hyz; simp [lexLe, hxy]
          · simp [lexLe, hyz, asymm hyz] at hbc
        · subst hxy
          rcases lt_trichotomy x z with hyz | hyz | hyz
          · simp [lexLe, hyz]
          · subst hyz
            simp only [lexLe, lt_irrefl, if_false] at hab hbc ⊢
            exact ih ys zs hab hbc
          · simp [lexLe, hyz, asymm hyz] at hbc
        · simp [lexLe, hxy, asymm hxy] at hab

/-- Antisymmetry of the lexicographic comparison. -/
theorem lexLe_antisymm (a : List Char) :
    ∀ b, lexLe a b = true → lexLe b a = true → a = b := by
  induction a with
  | nil =>
    intro b _ hba
    cases b with
    | nil => rfl
    | cons y ys => simp [lexLe] at hba
  | cons x xs ih =>
    intro b hab hba
    cases b with
    | nil => simp [lexLe] at hab
    | cons y ys =>
      rcases lt_trichotomy x y with h | h | h
      · simp [lexLe, h, asymm h] at hba
      · subst h
        simp only [lexLe, lt_irrefl, if_false] at hab hba
        exact congrArg (x :: ·) (ih ys hab hba)
      · simp [lexLe, h, asymm h] at hab

instance : IsTotal String strLe :=
  ⟨fun a b => lexLe_total a.data b.data⟩

instance : IsTrans String strLe :=
  ⟨fun a b c => lexLe_trans a.data b.data c.data⟩

/-- Antisymmetry transported to strings. -/
theorem strLe_antisymm {a b : String} (hab : strLe a b) (hba : strLe b a) : a = b := by
  cases a; cases b
  exact congrArg String.mk (lexLe_antisymm _ _ hab hba)

-- ===========================================================================
-- Key lemmas of the solver URL builder
-- ===========================================================================

/-- Appending a fresh key places it at the end of the key list. -/
theorem paramKeys_appendParam (ps : SearchParams) (k v : String)
    (h : k ∉ paramKeys ps) :
    paramKeys (appendParam ps k v) = paramKeys ps ++ [k] := by
  have hany : ps.any (fun kv => kv.1 = k) = false := by
    simp only [List.any_eq_false]
    intro kv hkv
    simp only [decide_eq_true_eq]
    intro hk
    exact h (hk ▸ List.mem_map_of_mem Prod.fst hkv)
  simp [appendParam, hany, paramKeys]

/-- The key-collection loop appends exactly the defined keys, in order. -/
theorem paramKeys_collectSolverParams (bag : SolverParamBag) :
    ∀ (ks : List String) (ps : SearchParams), ks.Nodup →
      (∀ x ∈ ks, x ∉ paramKeys ps) →
      paramKeys (collectSolverParams bag ks ps) =
        paramKeys ps ++ ks.filter (fun k => (bagLookup bag k).isSome) := by
  intro ks
  induction ks with
  | nil => intro ps _ _; simp [collectSolverParams]
  | cons k ks ih =>
    intro ps hnd hdis
    rcases List.nodup_cons.mp hnd with ⟨hk, hnd'⟩
    cases hv : bagLookup bag k with
    | none =>
      have := ih ps hnd' (fun x hx => hdis x (List.mem_cons_of_mem k hx))
      simp [collectSolverParams, hv, this]
    | some v =>
      have hfresh : k ∉ paramKeys ps := hdis k (List.mem_cons_self k ks)
      have hdis' : ∀ x ∈ ks, x ∉ paramKeys (appendParam ps k (pvalString v)) := by
        intro x hx
        rw [paramKeys_appendParam ps k _ hfresh]
        simp only [List.mem_append, List.mem_singleton]
        rintro (hin | hEq)
        · exact hdis x (List.mem_cons_of_mem k hx) hin
        · exact hk (hEq ▸ hx)
      have := ih (appendParam ps k (pvalString v)) hnd' hdis'
      simp [collectSolverParams, hv, this, paramKeys_appendParam ps k _ hfresh]

/-- C2 (amended): only the solver URL builder sorts its query keys — for
every solver parameter bag with distinct keys the emitted key sequence is
strictly ascending — while the other endpoints emit keys in their fixed
append order; in particular `getChallenges` with both parameters set appends
`level` first and `difficulty` second. -/
theorem solver_url_keys_sorted_and_challenges_order (bag : SolverParamBag)
    (hnd : (bag.map Prod.fst).Nodup) :
    List.Pairwise strLt (paramKeys (collectSolverParams bag (sortedBagKeys bag) [])) ∧
    getChallengesParams (some 3) (some "hard") = [("level", ["3"]), ("difficulty", ["hard"])] := by
  constructor
  · have hsortnd : (sortedBagKeys bag).Nodup :=
      (List.perm_insertionSort strLe (bag.map Prod.fst)).symm.nodup hnd
    have hdisj : ∀ x ∈ sortedBagKeys bag, x ∉ paramKeys ([] : SearchParams) := by
      intro x _ hx
      simp [paramKeys] at hx
    rw [paramKeys_collectSolverParams bag (sortedBagKeys bag) [] hsortnd hdisj]
    have hsorted : List.Pairwise strLe (sortedBagKeys bag) :=
      List.sorted_insertionSort strLe (bag.map Prod.fst)
    have h1 : List.Pairwise strLe
        ((sortedBagKeys bag).filter (fun k => (bagLookup bag k).isSome)) :=
      List.Pairwise.filter _ hsorted
    have h2 : ((sortedBagKeys bag).filter (fun k => (bagLookup bag k).isSome)).Nodup :=
      List.Nodup.filter _ hsortnd
    simp only [paramKeys, List.map_nil, List.nil_append]
    exact (h1.and h2).imp (fun h => h)
  · rfl

/-- C2 counterexample: `getChallenges` with both level and difficulty set
emits the key `level` strictly before `difficulty`, although `difficulty`
precedes `level` lexicographically — so the emitted keys of this non-solver
endpoint are not in ascending lexicographic order. -/
theorem getChallenges_key_order_counterexample :
    paramKeys (getChallengesParams (some 3) (some "hard")) = ["level", "difficulty"] ∧
    strLt "difficulty" "level" ∧
    ¬ strLt "level" "difficulty" := by
  refine ⟨rfl, by decide, by decide⟩

/-- C2 witness: the full solverSolve parameter bag has distinct keys and its
emitted key sequence is strictly ascending. -/
theorem solver_url_keys_sorted_witness :
    ((solverSolveBag ⟨"040", "000", some true, some "1,2", some "f", some "3"⟩).map Prod.fst).Nodup ∧
    List.Pairwise strLt (paramKeys (collectSolverParams
      (solverSolveBag ⟨"040", "000", some true, some "1,2", some "f", some "3"⟩)
      (sortedBagKeys (solverSolveBag ⟨"040", "000", some true, some "1,2", some "f", some "3"⟩)) [])) :=
  ⟨by decide,
   (solver_url_keys_sorted_and_challenges_order _ (by decide)).1⟩

-- ===========================================================================
-- Cache-key lemmas
-- ===========================================================================

/-- Head equation of the property lookup when the head key matches. -/
theorem filterLookup_cons_pos {kv : String × FilterValue} {t : FilterObj} {k : String}
    (hk : kv.1 = k) : filterLookup k (kv :: t) = some kv.2 := by
  simp [filterLookup, List.find?_cons, hk]

/-- Head equation of the property lookup when the head key differs. -/
theorem filterLookup_cons_neg {kv : String × FilterValue} {t : FilterObj} {k : String}
    (hk : ¬ kv.1 = k) : filterLookup k (kv :: t) = filterLookup k t := by
  simp [filterLookup, List.find?_cons, hk]

/-- A successful property lookup comes from a member of the object. -/
theorem mem_of_filterLookup {f : FilterObj} {k : String} {v : FilterValue}
    (h : filterLookup k f = some v) : (k, v) ∈ f := by
  induction f with
  | nil => simp [filterLookup] at h
  | cons kv t ih =>
    by_cases hk : kv.1 = k
    · rw [filterLookup_cons_pos hk] at h
      rcases kv with ⟨k1, v1⟩
      simp only [Option.some.injEq] at h
      subst hk
      subst h
      exact List.mem_cons_self _ _
    · rw [filterLookup_cons_neg hk] at h
      exact List.mem_cons_of_mem _ (ih h)

/-- With unique keys, membership determines the property lookup. -/
theorem filterLookup_of_mem {f : FilterObj} (hnd : (f.map Prod.fst).Nodup)
    {k : String} {v : FilterValue} (h : (k, v) ∈ f) :
    filterLookup k f = some v := by
  induction f with
  | nil => cases h
  | cons kv t ih =>
    rw [List.map_cons] at hnd
    rcases List.nodup_cons.mp hnd with ⟨hk, hnd'⟩
    rcases List.mem_cons.mp h with hEq | hmem
    · rw [← hEq]
      exact filterLookup_cons_pos rfl
    · have hkne : ¬ kv.1 = k := by
        intro hkk
        exact hk (hkk ▸ List.mem_map_of_mem Prod.fst hmem)
      rw [filterLookup_cons_neg hkne]
      exact ih hnd' hmem

/-- An absent key has no property lookup. -/
theorem filterLookup_eq_none {f : FilterObj} {k : String}
    (h : k ∉ f.map Prod.fst) : filterLookup k f = none := by
  unfold filterLookup
  rw [List.find?_eq_none.mpr]
  · rfl
  · intro kv hkv
    simp only [decide_eq_true_eq]
    intro hkk
    exact h (hkk ▸ List.mem_map_of_mem Prod.fst hkv)

/-- Permuting an object with unique keys leaves every property lookup
unchanged. -/
theorem filterLookup_perm {f1 f2 : FilterObj} (hperm : f1.Perm f2)
    (hnd : (f1.map Prod.fst).Nodup) (k : String) :
    filterLookup k f1 = filterLookup k f2 := by
  have hnd2 : (f2.map Prod.fst).Nodup := ((hperm.map Prod.fst).nodup_iff).mp hnd
  cases h1 : filterLookup k f1 with
  | some v =>
    exact (filterLookup_of_mem hnd2 (hperm.mem_iff.mp (mem_of_filterLookup h1))).symm
  | none =>
    cases h2 : filterLookup k f2 with
    | none => rfl
    | some v =>
      have := filterLookup_of_mem hnd (hperm.mem_iff.mpr (mem_of_filterLookup h2))
      rw [h1] at this
      cases this

/-- Agreeing property lookups make the deep object equality succeed. -/
theorem filterObjEq_of_lookup_eq {f1 f2 : FilterObj}
    (h : ∀ k, filterLookup k f1 = filterLookup k f2) :
    filterObjEq f1 f2 = true := by
  have hdef : ∀ k, definedLookup k f1 = definedLookup k f2 := by
    intro k
    unfold definedLookup
    rw [h k]
  unfold filterObjEq
  rw [Bool.and_eq_true, List.all_eq_true, List.all_eq_true]
  constructor
  · intro kv _
    simp [hdef kv.1]
  · intro kv _
    simp [hdef kv.1]

/-- C8: cache keys built by the query-key factory compare equal under deep
structural equality for any two filter objects with the same key/value
content regardless of insertion order, and compare unequal when some present
property value differs. -/
theorem cacheKey_insertion_order_invariance (f1 f2 : FilterObj)
    (hperm : f1.Perm f2) (hnd : (f1.map Prod.fst).Nodup) :
    cacheKeyEq (techniquesKey f1) (techniquesKey f2) = true ∧
    ∀ g1 g2 : FilterObj, ∀ (k : String) (v1 v2 : FilterValue),
      filterLookup k g1 = some v1 → filterLookup k g2 = some v2 →
      v1 ≠ v2 → v1 ≠ FilterValue.undef → v2 ≠ FilterValue.undef →
      cacheKeyEq (techniquesKey g1) (techniquesKey g2) = false := by
  constructor
  · have hobj : filterObjEq f1 f2 = true :=
      filterObjEq_of_lookup_eq (filterLookup_perm hperm hnd)
    simp [cacheKeyEq, techniquesKey, sudojoBaseKey, segEq, hobj]
  · intro g1 g2 k v1 v2 h1 h2 hne hv1 hv2
    have hobj : filterObjEq g1 g2 = false := by
      rw [Bool.eq_false_iff]
      intro habs
      unfold filterObjEq at habs
      rw [Bool.and_eq_true, List.all_eq_true, List.all_eq_true] at habs
      have hmem := mem_of_filterLookup h1
      have := habs.1 (k, v1) hmem
      simp only [decide_eq_true_eq] at this
      have hd1 : definedLookup k g1 = some v1 := by
        unfold definedLookup
        rw [h1]
        cases v1 <;> simp_all
      have hd2 : definedLookup k g2 = some v2 := by
        unfold definedLookup
        rw [h2]
        cases v2 <;> simp_all
      rw [hd1, hd2] at this
      exact hne (Option.some.injEq _ _ ▸ this)
    simp [cacheKeyEq, techniquesKey, sudojoBaseKey, segEq, hobj]

/-- C8 witness: two-property objects in opposite insertion orders compare
equal; objects differing in the level value compare unequal. -/
theorem cacheKey_insertion_order_invariance_witness :
    cacheKeyEq
      (techniquesKey [("level", FilterValue.num 3), ("language_code", FilterValue.str "en")])
      (techniquesKey [("language_code", FilterValue.str "en"), ("level", FilterValue.num 3)]) = true ∧
    cacheKeyEq
      (techniquesKey [("level", FilterValue.num 3)])
      (techniquesKey [("level", FilterValue.num 4)]) = false :=
  ⟨(cacheKey_insertion_order_invariance _ _ (by decide) (by decide)).1,
   (cacheKey_insertion_order_invariance [] [] (List.Perm.refl []) (by decide)).2
     [("level", FilterValue.num 3)] [("level", FilterValue.num 4)]
     "level" (FilterValue.num 3) (FilterValue.num 4)
     (by decide) (by decide) (by decide) (by decide) (by decide)⟩

-- ===========================================================================
-- Character and byte facts for the comma round-trip
-- ===========================================================================

/-- Unicode scalar values lie below 0x110000. -/
theorem char_toNat_lt (c : Char) : c.toNat < 1114112 := by
  have h := c.valid
  rcases h with h | ⟨_, h2⟩
  · have : c.toNat < 55296 := h
    omega
  · exact h2

/-- Characters with equal code points are equal. -/
theorem char_eq_of_toNat_eq {c d : Char} (h : c.toNat = d.toNat) : c = d := by
  rw [← Char.ofNat_toNat c, ← Char.ofNat_toNat d, h]

/-- Uppercase hex digits are never the percent sign. -/
theorem hexUpper_ne_pct {n : Nat} (h : n < 16) : ¬ hexUpper n = '%' := by
  interval_cases n <;> decide

/-- The digit `2` is the image of 2 alone. -/
theorem hexUpper_eq_two {n : Nat} (h : n < 16) : hexUpper n = '2' ↔ n = 2 := by
  interval_cases n <;> decide

/-- The digit `C` is the image of 12 alone. -/
theorem hexUpper_eq_cee {n : Nat} (h : n < 16) : hexUpper n = 'C' ↔ n = 12 := by
  interval_cases n <;> decide

/-- Hex digits evaluate back to their value. -/
theorem hexVal_hexUpper {n : Nat} (h : n < 16) : hexVal (hexUpper n) = some n := by
  interval_cases n <;> decide

/-- Unreserved characters are ASCII and are neither `%` (37) nor `,` (44). -/
theorem uriUnreserved_facts {c : Char} (h : isUriUnreserved c = true) :
    c.toNat < 128 ∧ c.toNat ≠ 37 ∧ c.toNat ≠ 44 := by
  simp only [isUriUnreserved, isUnreservedMark, Bool.or_eq_true, Bool.and_eq_true,
    decide_eq_true_eq] at h
  omega

/-- All UTF-8 bytes of a scalar value fit in one byte. -/
theorem utf8Bytes_lt_256 {v : Nat} (hv : v < 1114112) :
    ∀ b ∈ utf8Bytes v, b < 256 := by
  intro b hb
  unfold utf8Bytes at hb
  split_ifs at hb with h1 h2 h3
  · simp only [List.mem_singleton] at hb
    omega
  · simp only [List.mem_cons, List.mem_singleton, List.not_mem_nil, or_false] at hb
    rcases hb with rfl | rfl <;> omega
  · simp only [List.mem_cons, List.mem_singleton, List.not_mem_nil, or_false] at hb
    rcases hb with rfl | rfl | rfl <;> omega
  · simp only [List.mem_cons, List.mem_singleton, List.not_mem_nil, or_false] at hb
    rcases hb with rfl | rfl | rfl | rfl <;> omega

/-- No UTF-8 byte of a scalar value other than 44 equals 44. -/
theorem utf8Bytes_ne_44 {v : Nat} (h44 : v ≠ 44) :
    ∀ b ∈ utf8Bytes v, b ≠ 44 := by
  intro b hb
  unfold utf8Bytes at hb
  split_ifs at hb with h1 h2 h3
  · simp only [List.mem_singleton] at hb
    omega
  · simp only [List.mem_cons, List.mem_singleton, List.not_mem_nil, or_false] at hb
    rcases hb with rfl | rfl <;> omega
  · simp only [List.mem_cons, List.mem_singleton, List.not_mem_nil, or_false] at hb
    rcases hb with rfl | rfl | rfl <;> omega
  · simp only [List.mem_cons, List.mem_singleton, List.not_mem_nil, or_false] at hb
    rcases hb with rfl | rfl | rfl | rfl <;> omega

-- ===========================================================================
-- Step lemmas of the comma-escape scanner
-- ===========================================================================

/-- Single-step cons equation of the scanner. -/
theorem rce_cons_eq (c : Char) (l : List Char) :
    replaceCommaEscapes (c :: l) =
      if c = '%' && l.take 2 = ['2', 'C'] then ',' :: (replaceCommaEscapes l).drop 2
      else c :: replaceCommaEscapes l := rfl

/-- A non-percent head passes through the scanner unchanged. -/
theorem rce_cons_ne {c : Char} (hc : ¬ c = '%') (l : List Char) :
    replaceCommaEscapes (c :: l) = c :: replaceCommaEscapes l := by
  rw [rce_cons_eq, if_neg (by simp [hc])]

/-- A comma escape at the head is replaced and skipped. -/
theorem rce_comma_escape (l : List Char) :
    replaceCommaEscapes ('%' :: '2' :: 'C' :: l) = ',' :: replaceCommaEscapes l := by
  have h2 : replaceCommaEscapes ('2' :: 'C' :: l) = '2' :: 'C' :: replaceCommaEscapes l := by
    rw [rce_cons_ne (by decide), rce_cons_ne (by decide)]
  rw [rce_cons_eq, if_pos (by simp), h2]
  rfl

/-- A percent escape whose digits are not `2C` passes through the scanner. -/
theorem rce_pct_nomatch {h1 h2 : Char} (hno : ¬(h1 = '2' ∧ h2 = 'C')) (l : List Char) :
    replaceCommaEscapes ('%' :: h1 :: h2 :: l) = '%' :: replaceCommaEscapes (h1 :: h2 :: l) := by
  rw [rce_cons_eq, if_neg ?_]
  simp only [List.take_succ_cons, List.take_zero, Bool.and_eq_true, decide_eq_true_eq,
    List.cons.injEq, and_true]
  rintro ⟨-, ha, hb⟩
  exact hno ⟨ha, hb⟩

/-- A non-comma escape token passes through the scanner unchanged. -/
theorem rce_pctToken {b : Nat} (hb : b < 256) (h44 : b ≠ 44) (l : List Char) :
    replaceCommaEscapes (pctToken b ++ l) = pctToken b ++ replaceCommaEscapes l := by
  have hq : b / 16 < 16 := by omega
  have hr : b % 16 < 16 := by omega
  have hno : ¬(hexUpper (b / 16) = '2' ∧ hexUpper (b % 16) = 'C') := by
    rintro ⟨ha, hbb⟩
    rw [hexUpper_eq_two hq] at ha
    rw [hexUpper_eq_cee hr] at hbb
    omega
  show replaceCommaEscapes ('%' :: hexUpper (b / 16) :: hexUpper (b % 16) :: l) = _
  rw [rce_pct_nomatch hno, rce_cons_ne (hexUpper_ne_pct hq), rce_cons_ne (hexUpper_ne_pct hr)]
  rfl

/-- A list of non-comma escape tokens passes through the scanner unchanged. -/
theorem rce_flatMap_tokens {bs : List Nat} (h : ∀ b ∈ bs, b < 256 ∧ b ≠ 44) (l : List Char) :
    replaceCommaEscapes (bs.flatMap pctToken ++ l) =
      bs.flatMap pctToken ++ replaceCommaEscapes l := by
  induction bs with
  | nil => simp
  | cons b t ih =>
    simp only [List.flatMap_cons, List.append_assoc]
    rw [rce_pctToken (h b (List.mem_cons_self b t)).1 (h b (List.mem_cons_self b t)).2,
      ih (fun x hx => h x (List.mem_cons_of_mem b hx))]

-- ===========================================================================
-- Fusion: emitted value as a per-character map
-- ===========================================================================

/-- Per-character form of the emission: the comma has its escape restored,
every other character keeps its plain encoding. -/
def emitCharFused (c : Char) : List Char :=
  if c = ',' then [','] else encodeChar c

/-- One encoded character passes through the scanner as its fused form. -/
theorem rce_encodeChar (c : Char) (l : List Char) :
    replaceCommaEscapes (encodeChar c ++ l) = emitCharFused c ++ replaceCommaEscapes l := by
  by_cases hc : c = ','
  · subst hc
    have henc : encodeChar ',' = ['%', '2', 'C'] := by decide
    rw [henc]
    show replaceCommaEscapes ('%' :: '2' :: 'C' :: l) = _
    rw [rce_comma_escape]
    rfl
  · by_cases hu : isUriUnreserved c = true
    · have hne : ¬ c = '%' := by
        intro hEq
        have := (uriUnreserved_facts hu).2.1
        rw [hEq] at this
        exact this rfl
      rw [encodeChar, if_pos hu]
      show replaceCommaEscapes (c :: l) = _
      rw [rce_cons_ne hne]
      simp [emitCharFused, hc, encodeChar, hu]
    · have h44 : c.toNat ≠ 44 := by
        intro h
        exact hc (char_eq_of_toNat_eq h)
      have hfacts : ∀ b ∈ utf8Bytes c.toNat, b < 256 ∧ b ≠ 44 := fun b hb =>
        ⟨utf8Bytes_lt_256 (char_toNat_lt c) b hb, utf8Bytes_ne_44 h44 b hb⟩
      rw [encodeChar, if_neg hu]
      rw [rce_flatMap_tokens hfacts]
      simp [emitCharFused, hc, encodeChar, hu]

/-- The emitted value equals the per-character fused emission. -/
theorem emitValueChars_eq_fused (v : List Char) :
    emitValueChars v = v.flatMap emitCharFused := by
  unfold emitValueChars encodeURIComponentChars
  induction v with
  | nil => rfl
  | cons c t ih =>
    simp only [List.flatMap_cons]
    rw [rce_encodeChar, ih]

-- ===========================================================================
-- Absence of %2C in the emitted value
-- ===========================================================================

/-- Single-step cons equation of the occurrence check. -/
theorem c2c_cons_eq (c : Char) (l : List Char) :
    contains2C (c :: l) = ((c = '%' && l.take 2 = ['2', 'C']) || contains2C l) := rfl

/-- A non-percent head contributes no occurrence. -/
theorem c2c_cons_ne {c : Char} (hc : ¬ c = '%') (l : List Char) :
    contains2C (c :: l) = contains2C l := by
  rw [c2c_cons_eq]
  simp [hc]

/-- A non-comma escape token contributes no occurrence. -/
theorem c2c_pctToken {b : Nat} (hb : b < 256) (h44 : b ≠ 44) (l : List Char) :
    contains2C (pctToken b ++ l) = contains2C l := by
  have hq : b / 16 < 16 := by omega
  have hr : b % 16 < 16 := by omega
  have hno : ¬(hexUpper (b / 16) = '2' ∧ hexUpper (b % 16) = 'C') := by
    rintro ⟨ha, hbb⟩
    rw [hexUpper_eq_two hq] at ha
    rw [hexUpper_eq_cee hr] at hbb
    omega
  show contains2C ('%' :: hexUpper (b / 16) :: hexUpper (b % 16) :: l) = _
  rw [c2c_cons_eq]
  have hcond : (decide ('%' = '%') &&
      decide ((hexUpper (b / 16) :: hexUpper (b % 16) :: l).take 2 = ['2', 'C'])) = false := by
    simp only [List.take_succ_cons, List.take_zero, Bool.and_eq_false_iff, decide_eq_false_iff_not,
      List.cons.injEq, and_true]
    right
    intro ⟨ha, hbb⟩
    exact hno ⟨ha, hbb⟩
  rw [hcond, Bool.false_or, c2c_cons_ne (hexUpper_ne_pct hq), c2c_cons_ne (hexUpper_ne_pct hr)]

/-- A list of non-comma escape tokens contributes no occurrence. -/
theorem c2c_flatMap_tokens {bs : List Nat} (h : ∀ b ∈ bs, b < 256 ∧ b ≠ 44) (l : List Char) :
    contains2C (bs.flatMap pctToken ++ l) = contains2C l := by
  induction bs with
  | nil => simp
  | cons b t ih =>
    simp only [List.flatMap_cons, List.append_assoc]
    rw [c2c_pctToken (h b (List.mem_cons_self b t)).1 (h b (List.mem_cons_self b t)).2,
      ih (fun x hx => h x (List.mem_cons_of_mem b hx))]

/-- One fused character contributes no occurrence. -/
theorem c2c_emitCharFused (c : Char) (l : List Char) :
    contains2C (emitCharFused c ++ l) = contains2C l := by
  by_cases hc : c = ','
  · subst hc
    show contains2C (',' :: l) = _
    exact c2c_cons_ne (by decide) l
  · rw [emitCharFused, if_neg hc]
    by_cases hu : isUriUnreserved c = true
    · have hne : ¬ c = '%' := by
        intro hEq
        have := (uriUnreserved_facts hu).2.1
        rw [hEq] at this
        exact this rfl
      rw [encodeChar, if_pos hu]
      exact c2c_cons_ne hne l
    · have h44 : c.toNat ≠ 44 := fun h => hc (char_eq_of_toNat_eq h)
      have hfacts : ∀ b ∈ utf8Bytes c.toNat, b < 256 ∧ b ≠ 44 := fun b hb =>
        ⟨utf8Bytes_lt_256 (char_toNat_lt c) b hb, utf8Bytes_ne_44 h44 b hb⟩
      rw [encodeChar, if_neg hu]
      exact c2c_flatMap_tokens hfacts l

/-- The fused emission never contains the sequence `%2C`. -/
theorem c2c_fused_emission (v : List Char) :
    contains2C (v.flatMap emitCharFused) = false := by
  induction v with
  | nil => rfl
  | cons c t ih =>
    simp only [List.flatMap_cons]
    rw [c2c_emitCharFused, ih]

-- ===========================================================================
-- Decoding the emitted value back to the original
-- ===========================================================================

/-- An ASCII literal decodes to its own code. -/
theorem pdb_cons_lit {c : Char} (hc : ¬ c = '%') (hlt : c.toNat < 128) (l : List Char) :
    pctDecodeBytes (c :: l) = (pctDecodeBytes l).map (fun t => c.toNat :: t) := by
  rw [pctDecodeBytes.eq_def]
  simp [hc, hlt]

/-- An escape token decodes to its byte. -/
theorem pdb_pctToken {b : Nat} (hb : b < 256) (l : List Char) :
    pctDecodeBytes (pctToken b ++ l) = (pctDecodeBytes l).map (fun t => b :: t) := by
  have hq : b / 16 < 16 := by omega
  have hr : b % 16 < 16 := by omega
  show pctDecodeBytes ('%' :: hexUpper (b / 16) :: hexUpper (b % 16) :: l) = _
  rw [pctDecodeBytes.eq_def]
  have hdm : b / 16 * 16 + b % 16 = b := by omega
  simp [hexVal_hexUpper hq, hexVal_hexUpper hr, hdm]

/-- A list of escape tokens decodes to its bytes. -/
theorem pdb_flatMap_tokens {bs : List Nat} (h : ∀ b ∈ bs, b < 256) (l : List Char) :
    pctDecodeBytes (bs.flatMap pctToken ++ l) = (pctDecodeBytes l).map (fun t => bs ++ t) := by
  induction bs with
  | nil => simp
  | cons b t ih =>
    simp only [List.flatMap_cons, List.append_assoc]
    rw [pdb_pctToken (h b (List.mem_cons_self b t)),
      ih (fun x hx => h x (List.mem_cons_of_mem b hx)), Option.map_map]
    rfl

/-- One fused character decodes to the UTF-8 bytes of its code point. -/
theorem pdb_emitCharFused (c : Char) (l : List Char) :
    pctDecodeBytes (emitCharFused c ++ l) =
      (pctDecodeBytes l).map (fun t => utf8Bytes c.toNat ++ t) := by
  by_cases hc : c = ','
  · subst hc
    show pctDecodeBytes (',' :: l) = _
    rw [pdb_cons_lit (by decide) (by decide)]
    rfl
  · rw [emitCharFused, if_neg hc]
    by_cases hu : isUriUnreserved c = true
    · have hfacts := uriUnreserved_facts hu
      have hne : ¬ c = '%' := by
        intro hEq
        have := hfacts.2.1
        rw [hEq] at this
        exact this rfl
      rw [encodeChar, if_pos hu]
      show pctDecodeBytes (c :: l) = _
      rw [pdb_cons_lit hne hfacts.1]
      rw [utf8Bytes, if_pos hfacts.1]
      rfl
    · rw [encodeChar, if_neg hu]
      exact pdb_flatMap_tokens (utf8Bytes_lt_256 (char_toNat_lt c)) l

/-- The fused emission decodes to the UTF-8 byte stream of the value. -/
theorem pdb_fused_emission (v : List Char) :
    pctDecodeBytes (v.flatMap emitCharFused) =
      some (v.flatMap (fun c => utf8Bytes c.toNat)) := by
  induction v with
  | nil => rfl
  | cons c t ih =>
    simp only [List.flatMap_cons, List.append_assoc]
    rw [pdb_emitCharFused, ih]
    rfl

/-- Decoding the UTF-8 bytes of one scalar value prepends that value. -/
theorem utf8Decode_bytes_cons {v : Nat} (hv : v < 1114112) (bs : List Nat) :
    utf8DecodeCodepoints (utf8Bytes v ++ bs) =
      (utf8DecodeCodepoints bs).map (fun t => v :: t) := by
  by_cases h1 : v < 128
  · rw [utf8Bytes, if_pos h1]
    show utf8DecodeCodepoints (v :: bs) = _
    simp only [utf8DecodeCodepoints]
    simp [h1]
  · by_cases h2 : v < 2048
    · rw [utf8Bytes, if_neg h1, if_pos h2]
      show utf8DecodeCodepoints ((192 + v / 64) :: (128 + v % 64) :: bs) = _
      have ha : ¬ (192 + v / 64 < 128) := by omega
      have hb : ¬ (192 + v / 64 < 192) := by omega
      have hc : 192 + v / 64 < 224 := by omega
      have hd : isUtf8Cont (128 + v % 64) = true := by
        simp only [isUtf8Cont, Bool.and_eq_true, decide_eq_true_eq]
        omega
      simp only [utf8DecodeCodepoints, utf8DecCont1]
      simp [ha, hb, hc, hd]
      rw [show v / 64 * 64 + v % 64 = v from by omega]
    · by_cases h3 : v < 65536
      · rw [utf8Bytes, if_neg h1, if_neg h2, if_pos h3]
        show utf8DecodeCodepoints
          ((224 + v / 4096) :: (128 + v / 64 % 64) :: (128 + v % 64) :: bs) = _
        have ha : ¬ (224 + v / 4096 < 128) := by omega
        have hb : ¬ (224 + v / 4096 < 192) := by omega
        have hc : ¬ (224 + v / 4096 < 224) := by omega
        have hd : 224 + v / 4096 < 240 := by omega
        have he : isUtf8Cont (128 + v / 64 % 64) = true := by
          simp only [isUtf8Cont, Bool.and_eq_true, decide_eq_true_eq]
          omega
        have hf : isUtf8Cont (128 + v % 64) = true := by
          simp only [isUtf8Cont, Bool.and_eq_true, decide_eq_true_eq]
          omega
        simp only [utf8DecodeCodepoints, utf8DecCont2, utf8DecCont1]
        simp [ha, hb, hc, hd, he, hf]
        rw [show (v / 4096 * 64 + v / 64 % 64) * 64 + v % 64 = v from by omega]
      · rw [utf8Bytes, if_neg h1, if_neg h2, if_neg h3]
        show utf8DecodeCodepoints
          ((240 + v / 262144) :: (128 + v / 4096 % 64) :: (128 + v / 64 % 64) ::
            (128 + v % 64) :: bs) = _
        have ha : ¬ (240 + v / 262144 < 128) := by omega
        have hb : ¬ (240 + v / 262144 < 192) := by omega
        have hc : ¬ (240 + v / 262144 < 224) := by omega
        have hd : ¬ (240 + v / 262144 < 240) := by omega
        have he : 240 + v / 262144 < 248 := by omega
        have hf : isUtf8Cont (128 + v / 4096 % 64) = true := by
          simp only [isUtf8Cont, Bool.and_eq_true, decide_eq_true_eq]
          omega
        have hg : isUtf8Cont (128 + v / 64 % 64) = true := by
          simp only [isUtf8Cont, Bool.and_eq_true, decide_eq_true_eq]
          omega
        have hh : isUtf8Cont (128 + v % 64) = true := by
          simp only [isUtf8Cont, Bool.and_eq_true, decide_eq_true_eq]
          omega
        simp only [utf8DecodeCodepoints, utf8DecCont3, utf8DecCont2, utf8DecCont1]
        simp [ha, hb, hc, hd, he, hf, hg, hh]
        rw [show ((v / 262144 * 64 + v / 4096 % 64) * 64 + v / 64 % 64) * 64 + v % 64 = v
          from by omega]

/-- Decoding the concatenated UTF-8 bytes of a string recovers its code
points. -/
theorem utf8Decode_flatMap_bytes (v : List Char) :
    utf8DecodeCodepoints (v.flatMap (fun c => utf8Bytes c.toNat)) =
      some (v.map Char.toNat) := by
  induction v with
  | nil => rfl
  | cons c t ih =>
    simp only [List.flatMap_cons]
    rw [utf8Decode_bytes_cons (char_toNat_lt c), ih]
    rfl

/-- Decoding the emitted value recovers the original value. -/
theorem decode_emitValueChars (v : List Char) :
    decodeURIComponentModel (emitValueChars v) = some v := by
  rw [emitValueChars_eq_fused]
  unfold decodeURIComponentModel
  rw [pdb_fused_emission]
  show (utf8DecodeCodepoints (v.flatMap fun c => utf8Bytes c.toNat)).map
    (fun vs => vs.map Char.ofNat) = some v
  rw [utf8Decode_flatMap_bytes]
  simp only [Option.map_some', List.map_map, Option.some.injEq]
  have : (Char.ofNat ∘ Char.toNat) = id := by
    funext c
    exact Char.ofNat_toNat c
  rw [this, List.map_id]

/-- C7: for every value containing a comma, the emitted query value contains
the comma literally, never contains the sequence `%2C`, and round-trips
through encode and decode unchanged. -/
theorem emitValue_comma_roundtrip (v : List Char) (h : ',' ∈ v) :
    ',' ∈ emitValueChars v ∧
    contains2C (emitValueChars v) = false ∧
    decodeURIComponentModel (emitValueChars v) = some v := by
  refine ⟨?_, ?_, decode_emitValueChars v⟩
  · rw [emitValueChars_eq_fused]
    exact List.mem_flatMap.mpr ⟨',', h, by simp [emitCharFused]⟩
  · rw [emitValueChars_eq_fused]
    exact c2c_fused_emission v

/-- C7 witness: the pencilmarks list `123,456,789`. -/
theorem emitValue_comma_roundtrip_witness :
    ',' ∈ "123,456,789".data ∧
    (',' ∈ emitValueChars "123,456,789".data ∧
     contains2C (emitValueChars "123,456,789".data) = false ∧
     decodeURIComponentModel (emitValueChars "123,456,789".data) =
       some "123,456,789".data) :=
  ⟨by decide, emitValue_comma_roundtrip _ (by decide)⟩
